import Mathlib

/-!
A verification development for `manage_articles.py`, a small content-management
utility that moves markdown articles between a published store (`docs/`) and a
draft store (`drafts/`) and regenerates the `nav:` block of `mkdocs.yml`.

Modelling conventions:
* Python strings are `List Char` (ASCII behaviour of `str.strip`, `str.lower`,
  `str.upper` is modelled; the repository's data is ASCII).
* File-system paths are lists of name components (`FPath`).
* The file system is an association list from paths to entries; a regular file
  carries its text content, a directory carries nothing.  Well-formed file
  systems (`WF`) have no duplicate paths and every ancestor of an entry present
  as a directory, as on a real disk.
* Exceptions are modelled as explicit error values.
-/

/-- The characters of a string literal. -/
def chars (s : String) : List Char := s.toList

/-- ASCII lower-casing of one character (model of Python `str.lower` per char). -/
def toLowerAscii (c : Char) : Char :=
  if 'A' ≤ c ∧ c ≤ 'Z' then Char.ofNat (c.toNat + 32) else c

/-- ASCII upper-casing of one character (model of Python `str.upper` per char). -/
def toUpperAscii (c : Char) : Char :=
  if 'a' ≤ c ∧ c ≤ 'z' then Char.ofNat (c.toNat - 32) else c

/-- Model of Python `str.lower` (ASCII). -/
def toLowerStr (s : List Char) : List Char := s.map toLowerAscii

/-- The ASCII whitespace characters recognised by Python's `str.strip()` and
by the regex class `\s`. -/
def isPyWs (c : Char) : Bool :=
  c = ' ' || c = '\t' || c = '\n' || c = '\r' || c = '\x0b' || c = '\x0c'

/-- Strip the characters satisfying `p` from both ends (Python `str.strip()`). -/
def stripBy (p : Char → Bool) (s : List Char) : List Char :=
  ((s.dropWhile p).reverse.dropWhile p).reverse

/-- Python `str.strip()` with no arguments. -/
def pyStrip (s : List Char) : List Char := stripBy isPyWs s

/-- A file-system path, as a list of name components under the repo root. -/
abbrev FPath := List (List Char)

/-- A directory entry: a regular file with its text content, or a directory. -/
inductive Entry
  | file (content : List Char)
  | dir
deriving DecidableEq

/-- The file system: an association list from paths to entries. -/
abbrev FS := List (FPath × Entry)

/-- Look a path up in the file system (first matching entry). -/
def lookup : FS → FPath → Option Entry
  | [], _ => none
  | (q, e) :: rest, p => if q = p then some e else lookup rest p

/-- Remove every entry at path `p` (model of `unlink` / the old entry dying). -/
def eraseP : FS → FPath → FS
  | [], _ => []
  | (q, e) :: rest, p => if q = p then eraseP rest p else (q, e) :: eraseP rest p

/-- Write entry `e` at path `p`, replacing anything previously there. -/
def insertEnt (fs : FS) (p : FPath) (e : Entry) : FS := (p, e) :: eraseP fs p

/-- The nonempty proper prefixes of a path: the ancestor directories that
`Path.mkdir(parents=True)` on the parent would have to create. -/
def strictPrefixes (p : FPath) : List FPath :=
  (List.range' 1 (p.length - 1)).map (fun k => p.take k)

/-- One step of `mkdir(parents=True, exist_ok=True)`: create a directory at `q`
if nothing is there yet.  (If `q` is occupied by a regular file the real call
would raise; the claims under study never exercise that path.) -/
def mkdirStep (acc : FS) (q : FPath) : FS :=
  if lookup acc q = none then insertEnt acc q .dir else acc

/-- `dst.parent.mkdir(parents=True, exist_ok=True)`: create all missing
ancestor directories of `dst`. -/
def mkdirParents (fs : FS) (dst : FPath) : FS :=
  (strictPrefixes dst).foldl mkdirStep fs

/-- The exceptions `_move_article` can raise: `FileExistsError`,
`IsADirectoryError`, and the `FileNotFoundError` raised by `shutil.move`
when the source is not a regular file. -/
inductive MoveErr
  | alreadyExists
  | isADirectory
  | srcMissing
deriving DecidableEq

/-- `shutil.move(str(src), str(dst))` at a point where `dst` does not exist:
relocate the regular file at `src` to `dst`. -/
def shutilMove (fs : FS) (src dst : FPath) : FS × Option MoveErr :=
  match lookup fs src with
  | some (.file c) => (insertEnt (eraseP fs src) dst (.file c), none)
  | _ => (fs, some .srcMissing)

/-- `_move_article(src_root, dst_root, relpath, force=force)`:
make the destination's parent directories, then
if the destination exists: without `force` raise `FileExistsError`;
with `force`, raise `IsADirectoryError` if it is a directory, else unlink it;
finally `shutil.move` the source to the destination.
Returns the resulting file system and the exception raised, if any. -/
def moveArticle (fs : FS) (srcRoot dstRoot rel : FPath) (force : Bool) :
    FS × Option MoveErr :=
  match lookup (mkdirParents fs (dstRoot ++ rel)) (dstRoot ++ rel), force with
  | some _, false =>
    (mkdirParents fs (dstRoot ++ rel), some .alreadyExists)
  | some .dir, true =>
    (mkdirParents fs (dstRoot ++ rel), some .isADirectory)
  | some (.file _), true =>
    shutilMove (eraseP (mkdirParents fs (dstRoot ++ rel)) (dstRoot ++ rel))
      (srcRoot ++ rel) (dstRoot ++ rel)
  | none, _ =>
    shutilMove (mkdirParents fs (dstRoot ++ rel)) (srcRoot ++ rel) (dstRoot ++ rel)

/-- Concrete store layout for exercising the mover: one article in `docs/`. -/
def fsMove : FS :=
  [([chars "docs"], .dir),
   ([chars "docs", chars "a.md"], .file (chars "# A")),
   ([chars "drafts"], .dir)]

/-- Concrete store layout where `drafts/b.md` already exists as a directory
while `docs/b.md` is a regular file. -/
def fsMove8 : FS :=
  [([chars "docs"], .dir),
   ([chars "docs", chars "b.md"], .file (chars "bee")),
   ([chars "drafts"], .dir),
   ([chars "drafts", chars "b.md"], .dir)]

/-! ### The selection parser (`_prompt_indices`) -/

/-- The chunks of a string between the characters satisfying `p` (empty chunks
included), as `re.split` with a single-character class would produce them. -/
def pySplitP (p : Char → Bool) : List Char → List (List Char)
  | [] => [[]]
  | c :: rest =>
    if p c then [] :: pySplitP p rest
    else
      match pySplitP p rest with
      | [] => [[c]]
      | w :: ws => (c :: w) :: ws

/-- The nonempty chunks: splitting on runs of separators.  This is what
`re.split(r"[,\s]+", raw)` followed by the `if not part: continue` guard
yields, and likewise Python's `str.split()` with no arguments. -/
def tokensBy (p : Char → Bool) (s : List Char) : List (List Char) :=
  (pySplitP p s).filter (fun w => decide (¬ w = []))

/-- The separator class of `re.split(r"[,\s]+", raw)`. -/
def isSepChar (c : Char) : Bool := c = ',' || isPyWs c

/-- Python `str.split()` with no arguments. -/
def pySplitWs (s : List Char) : List (List Char) := tokensBy isPyWs s

/-- Digit parsing of Python `int(...)`: a nonempty digit string with single
underscores permitted between digits.  `acc` is the value so far, `prevDigit`
whether the previous character was a digit. -/
def pyDigitsCore : List Char → Nat → Bool → Option Nat
  | [], acc, prevDigit => if prevDigit then some acc else none
  | c :: rest, acc, prevDigit =>
    if c.isDigit then pyDigitsCore rest (acc * 10 + (c.toNat - '0'.toNat)) true
    else if c = '_' ∧ prevDigit = true then pyDigitsCore rest acc false
    else none

/-- Python `int(token)` for tokens free of whitespace (the tokens fed to it
here contain no whitespace, so the leading/trailing strip of `int` is moot):
an optional sign followed by digits, `none` modelling the `ValueError`. -/
def pyInt (s : List Char) : Option Int :=
  match s with
  | '+' :: rest => (pyDigitsCore rest 0 false).map (fun n => (n : Int))
  | '-' :: rest => (pyDigitsCore rest 0 false).map (fun n => -(n : Int))
  | _ => (pyDigitsCore s 0 false).map (fun n => (n : Int))

/-- `range(start, end + 1)` over integers. -/
def intRangeIncl (a b : Int) : List Int :=
  (List.range (b - a + 1).toNat).map (fun k => a + k)

/-- `part.split("-", 1)` when a dash is present: the text before the first
dash and the text after it. -/
def splitFirstDash (t : List Char) : List Char × List Char :=
  (t.takeWhile (fun c => decide (¬ c = '-')),
   (t.dropWhile (fun c => decide (¬ c = '-'))).drop 1)

/-- The indices one selection token contributes: a dash makes it a
`start-end` range (swapped if `start > end`, then expanded inclusively),
otherwise a single integer; `none` models the `ValueError` of `int`. -/
def tokenIndices (t : List Char) : Option (List Int) :=
  if '-' ∈ t then
    match pyInt (splitFirstDash t).1, pyInt (splitFirstDash t).2 with
    | some s, some e =>
      if s > e then some (intRangeIncl e s) else some (intRangeIncl s e)
    | _, _ => none
  else
    match pyInt t with
    | some v => some [v]
    | none => none

/-- All indices contributed by all tokens, failing on the first malformed
token as the `int()` call would. -/
def collectIndices : List (List Char) → Option (List Int)
  | [] => some []
  | t :: ts =>
    match tokenIndices t, collectIndices ts with
    | some l, some ls => some (l ++ ls)
    | _, _ => none

/-- Insert into a strictly sorted list keeping it strictly sorted: the
building block for `sorted(<set>)`. -/
def insertSorted (x : Int) : List Int → List Int
  | [] => [x]
  | y :: ys =>
    if x < y then x :: y :: ys
    else if x = y then y :: ys
    else y :: insertSorted x ys

/-- The sorted duplicate-free list of the collected values: `sorted(<set>)`. -/
def sortedSet (l : List Int) : List Int := l.foldr insertSorted []

/-- Besides returning a list, `_prompt_indices` can signal `SystemExit(0)` on
a quit keyword or `ValueError` on a bad selection. -/
inductive PromptErr
  | quit
  | invalid
deriving DecidableEq

/-- The pure part of `_prompt_indices(items, prompt)`, with `n = len(items)`
and `rawInput` the line the user typed: `[]` when there are no items or the
stripped input is empty; the quit signal on `q` / `quit` / `exit`
(case-insensitively); otherwise the sorted set of the expanded indices that
lie in `[1, n]`, failing if some token is malformed or nothing is in range. -/
def promptIndices (n : Nat) (rawInput : List Char) : Except PromptErr (List Int) :=
  if n = 0 then .ok []
  else if pyStrip rawInput = [] then .ok []
  else if toLowerStr (pyStrip rawInput) ∈ [chars "q", chars "quit", chars "exit"] then
    .error .quit
  else
    match collectIndices (tokensBy isSepChar (pyStrip rawInput)) with
    | none => .error .invalid
    | some l =>
      if sortedSet (l.filter (fun i => decide (1 ≤ i ∧ i ≤ (n : Int)))) = [] then
        .error .invalid
      else
        .ok (sortedSet (l.filter (fun i => decide (1 ≤ i ∧ i ≤ (n : Int)))))

/-! ### Title extraction (`_read_title`) -/

/-- The line-break characters recognised by Python `str.splitlines`. -/
def isLineBreak (c : Char) : Bool :=
  c = '\n' || c = '\r' || c = '\x0b' || c = '\x0c' ||
  c = '\x1c' || c = '\x1d' || c = '\x1e' || c = '\x85' ||
  c = '\u2028' || c = '\u2029'

/-- Worker for `str.splitlines`: `acc` holds the current line reversed;
a `\r\n` pair counts as a single break. -/
def pySplitlinesGo : List Char → List Char → List (List Char)
  | acc, [] => if acc = [] then [] else [acc.reverse]
  | acc, '\r' :: '\n' :: rest => acc.reverse :: pySplitlinesGo [] rest
  | acc, c :: rest =>
    if isLineBreak c then acc.reverse :: pySplitlinesGo [] rest
    else pySplitlinesGo (c :: acc) rest

/-- Python `str.splitlines()`. -/
def pySplitlines (s : List Char) : List (List Char) := pySplitlinesGo [] s

/-- The scan of `_read_title`: the first line whose stripped form starts with
`"# "` yields the stripped remainder after those two characters. -/
def findTitle : List (List Char) → Option (List Char)
  | [] => none
  | l :: ls =>
    if (chars "# ").isPrefixOf (pyStrip l) then
      some (pyStrip ((pyStrip l).drop 2))
    else findTitle ls

/-- Python `str.replace(a, b)` for one-character patterns. -/
def pyReplaceChar (a b : Char) (s : List Char) : List Char :=
  s.map (fun c => if c = a then b else c)

/-- `w[:1].upper() + w[1:]`. -/
def capFirst (w : List Char) : List Char :=
  match w with
  | [] => []
  | c :: rest => toUpperAscii c :: rest

/-- The fallback title, translated from the code:
`name = md_path.stem.replace("_", " ").replace("-", " ").strip()` followed by
`" ".join(w[:1].upper() + w[1:] for w in name.split() if w)`. -/
def fallbackTitle (stem : List Char) : List Char :=
  List.intercalate (chars " ")
    (((pySplitWs (pyStrip (pyReplaceChar '-' ' '
        (pyReplaceChar '_' ' ' stem)))).filter
      (fun w => decide (¬ w = []))).map capFirst)

/-- The fallback title as the spec words it: replace underscores and hyphens
with spaces, split into words, capitalize the first letter of each non-empty
word, rejoin with single spaces.  (Spec-side definition, for comparison with
`fallbackTitle`, which is translated from the code.) -/
def fallbackTitleSpec (stem : List Char) : List Char :=
  List.intercalate (chars " ")
    ((pySplitWs (pyReplaceChar '-' ' ' (pyReplaceChar '_' ' ' stem))).map capFirst)

/-- The three outcomes of `md_path.read_text(encoding="utf-8")`: the decoded
text, an `OSError` (unreadable file), or a `UnicodeDecodeError` (readable
bytes that are not valid UTF-8).  The latter is a `ValueError`, not an
`OSError`. -/
inductive ReadOutcome
  | ok (text : List Char)
  | osError
  | decodeError

/-- `_read_title(md_path)`, given the outcome of the `read_text` call and the
path's stem: scan the lines for a level-1 heading; fall back to the stem-based
title when the scan finds nothing or the read raised an `OSError`.  A
`UnicodeDecodeError` escapes the `except OSError` handler and propagates,
modelled by `Except.error`. -/
def readTitle (stem : List Char) (r : ReadOutcome) : Except Unit (List Char) :=
  match r with
  | .ok text =>
    match findTitle (pySplitlines text) with
    | some t => .ok t
    | none => .ok (fallbackTitle stem)
  | .osError => .ok (fallbackTitle stem)
  | .decodeError => .error ()

/-! ### The article scan (`_iter_md_files`, `_articles_in_docs`,
`_articles_in_drafts`) and the manifest renderer (`_render_nav_yaml`) -/

/-- Lexicographic comparison of strings by code point, as Python compares
`str` values. -/
def lexLe : List Char → List Char → Bool
  | [], _ => true
  | _ :: _, [] => false
  | a :: as, b :: bs => if a = b then lexLe as bs else decide (a < b)

/-- Insertion into a list sorted by `key` under `lexLe` (stable). -/
def insSorted (key : FPath → List Char) (x : FPath) : List FPath → List FPath
  | [] => [x]
  | y :: ys =>
    if lexLe (key x) (key y) then x :: y :: ys else y :: insSorted key x ys

/-- Stable insertion sort by `key`, modelling Python's `sorted`. -/
def sortByKey (key : FPath → List Char) : List FPath → List FPath
  | [] => []
  | x :: xs => insSorted key x (sortByKey key xs)

/-- The sort key `str(p).lower()`.  The absolute paths that the code compares
share the repo-root prefix, so comparing the lowered root-relative
slash-joined strings produces the same order. -/
def pathKey (p : FPath) : List Char :=
  toLowerStr (List.intercalate (chars "/") p)

/-- Is the entry a regular file (`path.is_file()`)? -/
def isFileEnt : Entry → Bool
  | .file _ => true
  | .dir => false

/-- Does the final path component match the glob pattern `*.md`?  `fnmatch`
translates `*.md` into "name ends with `.md`", compared case-sensitively on a
POSIX file system. -/
def nameEndsMd (p : FPath) : Bool :=
  match p.getLast? with
  | some n => (chars ".md").isSuffixOf n
  | none => false

/-- Is `p` strictly below `root` (at any depth), as `root.rglob` requires? -/
def isStrictUnder (root p : FPath) : Bool :=
  root.isPrefixOf p && decide (root.length < p.length)

/-- `_iter_md_files(root)`: `[]` when the root does not exist; otherwise all
regular files under `root` whose name matches `*.md`, sorted by
`str(p).lower()`. -/
def iterMdFiles (fs : FS) (root : FPath) : List FPath :=
  if lookup fs root = none then []
  else
    sortByKey pathKey
      ((fs.filter (fun pe =>
        isStrictUnder root pe.1 && isFileEnt pe.2 && nameEndsMd pe.1)).map
        (fun pe => pe.1))

/-- The index of the last dot of a name, for `pathlib`'s suffix rule. -/
def lastDotIdx (name : List Char) : Option Nat :=
  ((List.range name.length).filter
    (fun i => decide (name.get? i = some '.'))).getLast?

/-- `PurePath.suffix` of a single name: the extension from the last dot,
empty when the dot is the first character or the last one. -/
def pySuffix (name : List Char) : List Char :=
  match lastDotIdx name with
  | some i => if 0 < i ∧ i + 1 < name.length then name.drop i else []
  | none => []

/-- `PurePath.stem`: the name without its suffix. -/
def pyStem (name : List Char) : List Char :=
  name.take (name.length - (pySuffix name).length)

/-- `Article.is_markdown`: `self.relpath.suffix.lower() == ".md"`. -/
def isMarkdown (rel : FPath) : Bool :=
  decide (toLowerStr (pySuffix ((rel.getLast?).getD [])) = chars ".md")

/-- `DOCS_DIR` relative to the repo root. -/
def docsDir : FPath := [chars "docs"]

/-- `DRAFTS_DIR` relative to the repo root. -/
def draftsDir : FPath := [chars "drafts"]

/-- The three fixed section subdirectories of `_render_nav_yaml`. -/
def llmDir : FPath := [chars "docs", chars "llm"]

def agentsDir : FPath := [chars "docs", chars "agents"]

def scienceDir : FPath := [chars "docs", chars "ai_for_science"]

/-- The reserved relative paths excluded from `_articles_in_docs`. -/
def reservedRel : List FPath := [[chars "index.md"], [chars "about.md"]]

/-- `_articles_in_docs()`: the scan of `docs/` minus the reserved articles,
as relative paths. -/
def articlesInDocs (fs : FS) : List FPath :=
  if lookup fs docsDir = none then []
  else
    ((iterMdFiles fs docsDir).map (fun p => p.drop docsDir.length)).filter
      (fun rel => decide (rel ∉ reservedRel))

/-- `_articles_in_drafts()`: the scan of `drafts/`, as relative paths. -/
def articlesInDrafts (fs : FS) : List FPath :=
  if lookup fs draftsDir = none then []
  else (iterMdFiles fs draftsDir).map (fun p => p.drop draftsDir.length)

/-- `_read_title(md)` against the modelled file system: a missing or
non-regular entry is an `OSError`-style read failure (fallback); file
contents in the model are decoded text, so the decode-error path of
`ReadOutcome` does not arise here. -/
def readTitleAt (fs : FS) (p : FPath) : List Char :=
  match lookup fs p with
  | some (.file content) =>
    match findTitle (pySplitlines content) with
    | some t => t
    | none => fallbackTitle (pyStem ((p.getLast?).getD []))
  | _ => fallbackTitle (pyStem ((p.getLast?).getD []))

/-- `md.relative_to(DOCS_DIR).as_posix()`. -/
def relPosix (p : FPath) : List Char :=
  List.intercalate (chars "/") (p.drop docsDir.length)

/-- `section_items(section_dir)` inside `_render_nav_yaml`. -/
def sectionItems (fs : FS) (dir : FPath) : List (List Char × List Char) :=
  if lookup fs dir = none then []
  else (iterMdFiles fs dir).map (fun p => (readTitleAt fs p, relPosix p))

/-- One rendered article line: `f"      - {title}: {rel}"`. -/
def navEntryLine (ti : List Char × List Char) : List Char :=
  chars "      - " ++ ti.1 ++ chars ": " ++ ti.2

/-- A section's lines: nothing when it has no items, otherwise the header
line followed by one line per article. -/
def sectionBlock (header : List Char)
    (items : List (List Char × List Char)) : List (List Char) :=
  if items = [] then [] else header :: items.map navEntryLine

def llmHeader : List Char := chars "  - LLM Notes:"

def agentsHeader : List Char := chars "  - Agent Architectures:"

def scienceHeader : List Char := chars "  - AI for Science:"

/-- The lines `_render_nav_yaml` accumulates. -/
def renderNavLines (fs : FS) : List (List Char) :=
  [chars "nav:", chars "  - Home: index.md"] ++
  sectionBlock llmHeader (sectionItems fs llmDir) ++
  sectionBlock agentsHeader (sectionItems fs agentsDir) ++
  sectionBlock scienceHeader (sectionItems fs scienceDir) ++
  [chars "  - About: about.md"]

/-- `_render_nav_yaml()`: `"\n".join(lines) + "\n"`. -/
def renderNavYaml (fs : FS) : List Char :=
  List.intercalate (chars "\n") (renderNavLines fs) ++ chars "\n"

/-- Well-formedness of a modelled file system, as on a real disk: no
duplicate paths, no entry at the root itself, and every proper ancestor of an
entry present as a directory. -/
def WF (fs : FS) : Prop :=
  (fs.map (fun pe => pe.1)).Nodup ∧
  ∀ pe ∈ fs, pe.1 ≠ [] ∧ ∀ q ∈ strictPrefixes pe.1, lookup fs q = some .dir

instance decidableWF (fs : FS) : Decidable (WF fs) := by
  unfold WF
  infer_instance

/-- "The bound subdirectory contains at least one eligible article":
a regular file below `dir` whose name matches `*.md`. -/
def SectionHasArticle (fs : FS) (dir : FPath) : Prop :=
  ∃ p c, lookup fs p = some (.file c) ∧ isStrictUnder dir p = true ∧
    nameEndsMd p = true

/-- A store holding a single file with an upper-case extension. -/
def fsScan : FS :=
  [([chars "docs"], .dir),
   ([chars "docs", chars "X.MD"], .file (chars "hi"))]

/-- A store with one article inside the `llm` section directory. -/
def fsNav : FS :=
  [([chars "docs"], .dir),
   ([chars "docs", chars "llm"], .dir),
   ([chars "docs", chars "llm", chars "t.md"], .file (chars "# T\nbody"))]

/-! ### The nav splice (`_update_mkdocs_nav`) -/

/-- The tail of the pattern `(?m)^nav:\s*$` after the literal `nav:`: a run
of whitespace followed by end-of-string or a newline (the multiline `$` can
match before a `\n` inside the whitespace run).  `\s` includes `\n`. -/
def wsThenEol : List Char → Bool
  | [] => true
  | c :: rest => c = '\n' || (isPyWs c && wsThenEol rest)

/-- Does `(?m)^nav:\s*$` match at the start of the suffix `s`? -/
def navPatAt (s : List Char) : Bool :=
  (chars "nav:").isPrefixOf s && wsThenEol (s.drop 4)

/-- Is position `i` a line start of `text` (position 0 or just after a
newline), where multiline `^` can match? -/
def lineStart (text : List Char) (i : Nat) : Bool :=
  decide (i = 0) || decide (text.get? (i - 1) = some '\n')

/-- Does the regex match starting at position `i`? -/
def navMatchPos (text : List Char) (i : Nat) : Bool :=
  lineStart text i && navPatAt (text.drop i)

/-- The least index in `[i, i + fuel)` satisfying `p`, scanning left to
right as `re.search` does. -/
def findFirstIdx (p : Nat → Bool) : Nat → Nat → Option Nat
  | _, 0 => none
  | i, n + 1 => if p i then some i else findFirstIdx p (i + 1) n

/-- `re.search(r"(?m)^nav:\s*$", text)`, reduced to its `match.start()`. -/
def navMatchStart (text : List Char) : Option Nat :=
  findFirstIdx (navMatchPos text) 0 (text.length + 1)

/-- `_update_mkdocs_nav` on the config text, with `navYaml` the freshly
rendered block: on a match, keep the text before `match.start()` and splice
the block; otherwise append a terminating newline if missing, a blank
separator line, and the block. -/
def updateMkdocsNav (text navYaml : List Char) : List Char :=
  match navMatchStart text with
  | some i => text.take i ++ navYaml
  | none =>
    (if text.getLast? = some '\n' then text else text ++ ['\n']) ++
      '\n' :: navYaml

/-- The declarative regex semantics of one match position (spec side, for
the amended claim): a line start, the literal `nav:`, a whitespace run, then
end-of-string or a newline. -/
def NavMatchSpec (text : List Char) (i : Nat) : Prop :=
  (i = 0 ∨ text.get? (i - 1) = some '\n') ∧
  ∃ w rest, text.drop i = chars "nav:" ++ (w ++ rest) ∧
    (∀ c ∈ w, isPyWs c = true) ∧ (rest = [] ∨ ∃ r2, rest = '\n' :: r2)

/-! ### The interactive driver (`_interactive`) -/

/-- How one `_interactive` run ends: a normal process exit code (0 for
success, cancellation, or quit; 2 for an invalid choice or selection), an
uncaught exception from a move, an `IndexError` from the list indexing, or
the `FileNotFoundError` for a missing `mkdocs.yml`. -/
inductive RunEnd
  | exit (code : Nat)
  | errMove (e : MoveErr)
  | errIndex
  | errMissingConfig
deriving DecidableEq

/-- The world `_interactive` acts on: the file system and the content of
`mkdocs.yml` (`none` when the file is missing). -/
structure World where
  fs : FS
  mkdocs : Option (List Char)
deriving DecidableEq

/-- The observable result of a run: final file system and config content,
the stdout lines printed after the selection was read, and how it ended. -/
structure InterOut where
  fs : FS
  mkdocs : Option (List Char)
  postPrints : List (List Char)
  ending : RunEnd
deriving DecidableEq

/-- An error aborting the `for idx in picked` loop. -/
inductive BatchErr
  | move (e : MoveErr)
  | index
deriving DecidableEq

/-- The `for idx in picked` loop of `_interactive`: look the article up
(`src_items[idx - 1]`), move it, print the confirmation line, and stop at
the first exception.  Returns the file system, the confirmations printed,
and the error if one occurred.  (The callers only pass indices the parser
has validated to lie in `[1, len(arts)]`, so the Python semantics of a
negative index never matter here.) -/
def runBatch (srcRoot dstRoot : FPath) (arts : List FPath)
    (label : List Char) (force : Bool) :
    FS → List Int → FS × List (List Char) × Option BatchErr
  | fs, [] => (fs, [], none)
  | fs, i :: rest =>
    match arts.get? (i - 1).toNat with
    | none => (fs, [], some .index)
    | some rel =>
      match moveArticle fs srcRoot dstRoot rel force with
      | (fs2, some e) => (fs2, [], some (.move e))
      | (fs2, none) =>
        match runBatch srcRoot dstRoot arts label force fs2 rest with
        | (fs3, prints, err) =>
          (fs3,
           (label ++ chars "ed: " ++ List.intercalate (chars "/") rel) :: prints,
           err)

/-- `DRAFTS_DIR.mkdir(exist_ok=True)` at the top of `_interactive` (a
pre-existing entry is left alone). -/
def ensureDrafts (fs : FS) : FS :=
  if lookup fs draftsDir = none then insertEnt fs draftsDir .dir else fs

/-- What happens after the loop: a move exception propagates uncaught, the
config untouched; otherwise `_update_mkdocs_nav()` runs — `FileNotFoundError`
when `mkdocs.yml` is missing, else the rewrite — and the confirmation line
`Updated mkdocs nav.` is printed. -/
def afterBatch (mk : Option (List Char))
    (r : FS × List (List Char) × Option BatchErr) : InterOut :=
  match r.2.2 with
  | some (.move e) => ⟨r.1, mk, r.2.1, .errMove e⟩
  | some .index => ⟨r.1, mk, r.2.1, .errIndex⟩
  | none =>
    match mk with
    | none => ⟨r.1, none, r.2.1, .errMissingConfig⟩
    | some t =>
      ⟨r.1, some (updateMkdocsNav t (renderNavYaml r.1)),
       r.2.1 ++ [chars "Updated mkdocs nav."], .exit 0⟩

/-- The publish/unpublish half of `_interactive` after the menu choice:
nothing to do when the source store is empty; otherwise read the selection
(quit → `SystemExit(0)`, `ValueError` → printed and exit 2), run the moves,
and update the nav. -/
def interactiveMove (mk : Option (List Char)) (fs : FS)
    (srcRoot dstRoot : FPath) (arts : List FPath) (label : List Char)
    (force : Bool) (rawSel : List Char) : InterOut :=
  if arts = [] then ⟨fs, mk, [], .exit 0⟩
  else
    match promptIndices arts.length rawSel with
    | .error .quit => ⟨fs, mk, [], .exit 0⟩
    | .error .invalid => ⟨fs, mk, [], .exit 2⟩
    | .ok picked =>
      afterBatch mk (runBatch srcRoot dstRoot arts label force fs picked)

/-- `_interactive(force)`, with the menu choice line and the selection line
as the two console inputs: ensure `drafts/` exists, dispatch on the
stripped, lowered choice (`q`/`quit`/`exit` exits 0, `3` lists, `1`
unpublishes, `2` publishes, anything else is an error), and run the
selected move batch.  `postPrints` records only what is printed after the
selection is read. -/
def interactive (w : World) (force : Bool) (choice rawSel : List Char) :
    InterOut :=
  if toLowerStr (pyStrip choice) = chars "q" ∨
      toLowerStr (pyStrip choice) = chars "quit" ∨
      toLowerStr (pyStrip choice) = chars "exit" then
    ⟨ensureDrafts w.fs, w.mkdocs, [], .exit 0⟩
  else if toLowerStr (pyStrip choice) = chars "3" then
    ⟨ensureDrafts w.fs, w.mkdocs, [], .exit 0⟩
  else if toLowerStr (pyStrip choice) = chars "1" then
    interactiveMove w.mkdocs (ensureDrafts w.fs) docsDir draftsDir
      (articlesInDocs (ensureDrafts w.fs)) (chars "Unpublish") force rawSel
  else if toLowerStr (pyStrip choice) = chars "2" then
    interactiveMove w.mkdocs (ensureDrafts w.fs) draftsDir docsDir
      (articlesInDrafts (ensureDrafts w.fs)) (chars "Publish") force rawSel
  else
    ⟨ensureDrafts w.fs, w.mkdocs, [], .exit 2⟩

/-- A world with one article in `docs/` and a config without a nav block. -/
def wEmptySel : World :=
  ⟨[([chars "docs"], .dir),
    ([chars "docs", chars "a.md"], .file (chars "# A"))],
   some (chars "site_name: s\n")⟩

/-- A world where the second of two selected moves must fail: `drafts/b.md`
already exists. -/
def wBatch : World :=
  ⟨[([chars "docs"], .dir),
    ([chars "docs", chars "a.md"], .file (chars "aaa")),
    ([chars "docs", chars "b.md"], .file (chars "bbb")),
    ([chars "drafts"], .dir),
    ([chars "drafts", chars "b.md"], .file (chars "old"))],
   some (chars "nav:\n")⟩

/-! ### Basic lemmas about the file-system model -/

theorem lookup_eraseP_self (fs : FS) (p : FPath) : lookup (eraseP fs p) p = none := by
  induction fs with
  | nil => rfl
  | cons pe rest ih =>
    obtain ⟨q, e⟩ := pe
    by_cases h : q = p
    · simp [eraseP, h, ih]
    · simp [eraseP, lookup, h, ih]

theorem lookup_eraseP_ne (fs : FS) (p q : FPath) (h : q ≠ p) :
    lookup (eraseP fs p) q = lookup fs q := by
  induction fs with
  | nil => rfl
  | cons pe rest ih =>
    obtain ⟨r, e⟩ := pe
    by_cases hr : r = p
    · subst hr
      show lookup (if r = r then eraseP rest r else (r, e) :: eraseP rest r) q
        = lookup ((r, e) :: rest) q
      rw [if_pos rfl, ih]
      show lookup rest q = if r = q then some e else lookup rest q
      rw [if_neg (fun hh => h hh.symm)]
    · by_cases hq : r = q
      · simp only [eraseP, if_neg hr, lookup, if_pos hq]
      · simp only [eraseP, if_neg hr, lookup, if_neg hq]
        exact ih

theorem lookup_insertEnt_self (fs : FS) (p : FPath) (e : Entry) :
    lookup (insertEnt fs p e) p = some e := by
  simp [insertEnt, lookup]

theorem lookup_insertEnt_ne (fs : FS) (p q : FPath) (e : Entry) (h : q ≠ p) :
    lookup (insertEnt fs p e) q = lookup fs q := by
  unfold insertEnt
  simp only [lookup]
  rw [if_neg (fun hh => h hh.symm)]
  exact lookup_eraseP_ne fs p q h

theorem lookup_mkdirStep_keeps (acc : FS) (q p : FPath) (e : Entry)
    (h : lookup acc p = some e) : lookup (mkdirStep acc q) p = some e := by
  unfold mkdirStep
  by_cases hq : lookup acc q = none
  · have hne : p ≠ q := by
      intro hh; subst hh; rw [h] at hq; exact Option.noConfusion hq
    simp [hq, lookup_insertEnt_ne acc q p .dir hne, h]
  · simp [hq, h]

theorem lookup_foldl_mkdirStep_keeps (L : List FPath) (fs : FS) (p : FPath) (e : Entry)
    (h : lookup fs p = some e) : lookup (L.foldl mkdirStep fs) p = some e := by
  induction L generalizing fs with
  | nil => exact h
  | cons q L ih => exact ih _ (lookup_mkdirStep_keeps fs q p e h)

theorem lookup_mkdirParents_keeps (fs : FS) (dst p : FPath) (e : Entry)
    (h : lookup fs p = some e) : lookup (mkdirParents fs dst) p = some e :=
  lookup_foldl_mkdirStep_keeps _ fs p e h

theorem lookup_foldl_mkdirStep_not_mem (L : List FPath) (fs : FS) (p : FPath)
    (h : p ∉ L) : lookup (L.foldl mkdirStep fs) p = lookup fs p := by
  induction L generalizing fs with
  | nil => rfl
  | cons q L ih =>
    have hq : p ≠ q := fun hh => h (hh ▸ List.mem_cons_self q L)
    have hL : p ∉ L := fun hh => h (List.mem_cons_of_mem q hh)
    rw [List.foldl_cons, ih _ hL]
    unfold mkdirStep
    by_cases hnone : lookup fs q = none
    · simp [hnone, lookup_insertEnt_ne fs q p .dir hq]
    · simp [hnone]

theorem mem_strictPrefixes (q p : FPath) :
    q ∈ strictPrefixes p ↔ ∃ k, 1 ≤ k ∧ k < p.length ∧ q = p.take k := by
  simp only [strictPrefixes, List.mem_map]
  constructor
  · rintro ⟨k, hk, rfl⟩
    obtain ⟨i, hi, rfl⟩ := List.mem_range'.1 hk
    exact ⟨1 + 1 * i, by omega, by omega, rfl⟩
  · rintro ⟨k, hk1, hk2, rfl⟩
    exact ⟨k, List.mem_range'.2 ⟨k - 1, by omega, by omega⟩, rfl⟩

theorem self_not_mem_strictPrefixes (p : FPath) : p ∉ strictPrefixes p := by
  rw [mem_strictPrefixes]
  rintro ⟨k, hk1, hk2, heq⟩
  have : p.length = min k p.length := by
    conv_lhs => rw [heq]
    exact List.length_take k p
  omega

theorem lookup_mkdirParents_self (fs : FS) (dst : FPath) :
    lookup (mkdirParents fs dst) dst = lookup fs dst :=
  lookup_foldl_mkdirStep_not_mem _ fs dst (self_not_mem_strictPrefixes dst)

/-! ### Lemmas about `moveArticle` -/

/-- If the source and destination paths coincide and the source is a regular
file, `_move_article` always raises (without `force` a `FileExistsError`; with
`force` it unlinks the file and then `shutil.move` cannot find the source). -/
theorem moveArticle_same_path_fails (fs : FS) (srcRoot dstRoot rel : FPath)
    (c : List Char) (force : Bool)
    (heq : srcRoot ++ rel = dstRoot ++ rel)
    (hsrc : lookup fs (srcRoot ++ rel) = some (.file c)) :
    (moveArticle fs srcRoot dstRoot rel force).2 ≠ none := by
  unfold moveArticle
  have hdst : lookup (mkdirParents fs (dstRoot ++ rel)) (dstRoot ++ rel)
      = some (.file c) :=
    lookup_mkdirParents_keeps fs _ _ _ (heq ▸ hsrc)
  rw [hdst]
  cases force with
  | false => simp
  | true =>
    have hgone : lookup (eraseP (mkdirParents fs (dstRoot ++ rel))
        (dstRoot ++ rel)) (srcRoot ++ rel) = none := by
      rw [heq]; exact lookup_eraseP_self _ _
    simp [shutilMove, hgone]

/-- Shape of a successful `_move_article`: for a regular-file source with a
distinct destination path, the resulting file system is some `g` with the file
written at the destination, and the source is absent from `g`. -/
theorem moveArticle_success_shape (fs : FS) (srcRoot dstRoot rel : FPath)
    (c : List Char) (force : Bool)
    (hsrc : lookup fs (srcRoot ++ rel) = some (.file c))
    (hne : srcRoot ++ rel ≠ dstRoot ++ rel)
    (h : (moveArticle fs srcRoot dstRoot rel force).2 = none) :
    ∃ g : FS, (moveArticle fs srcRoot dstRoot rel force).1
        = insertEnt g (dstRoot ++ rel) (.file c) ∧
      lookup g (srcRoot ++ rel) = none := by
  unfold moveArticle at h ⊢
  have hs1 : lookup (mkdirParents fs (dstRoot ++ rel)) (srcRoot ++ rel)
      = some (.file c) :=
    lookup_mkdirParents_keeps fs _ _ _ hsrc
  rcases hd : lookup (mkdirParents fs (dstRoot ++ rel)) (dstRoot ++ rel) with _ | e
  · rw [hd] at h
    cases force <;>
      simp only [shutilMove, hs1] at h ⊢ <;>
      exact ⟨eraseP (mkdirParents fs (dstRoot ++ rel)) (srcRoot ++ rel), rfl,
        lookup_eraseP_self _ _⟩
  · rw [hd] at h
    cases force with
    | false => simp at h
    | true =>
      cases e with
      | dir => simp at h
      | file d =>
        have hs2 : lookup (eraseP (mkdirParents fs (dstRoot ++ rel))
            (dstRoot ++ rel)) (srcRoot ++ rel) = some (.file c) := by
          rw [lookup_eraseP_ne _ _ _ hne]; exact hs1
        simp only [shutilMove, hs2] at h ⊢
        refine ⟨_, rfl, lookup_eraseP_self _ _⟩

/-- C8: for every `_move_article` invocation that signals an error
(`AlreadyExists`, i.e. `FileExistsError`, or `DestinationIsDirectory`, i.e.
`IsADirectoryError`), the source file is still present with unchanged content
afterward; the only state the failed call may have added is freshly created
destination parent directories, which never overwrite an existing entry, so
the move is all-or-nothing for the article itself. -/
theorem c8_error_leaves_source_intact (fs : FS) (srcRoot dstRoot rel : FPath)
    (force : Bool) (c : List Char) (e : MoveErr)
    (hsrc : lookup fs (srcRoot ++ rel) = some (.file c))
    (herr : (moveArticle fs srcRoot dstRoot rel force).2 = some e)
    (he : e = .alreadyExists ∨ e = .isADirectory) :
    lookup (moveArticle fs srcRoot dstRoot rel force).1 (srcRoot ++ rel)
      = some (.file c) := by
  unfold moveArticle at herr ⊢
  have hs1 : lookup (mkdirParents fs (dstRoot ++ rel)) (srcRoot ++ rel)
      = some (.file c) :=
    lookup_mkdirParents_keeps fs _ _ _ hsrc
  rcases hd : lookup (mkdirParents fs (dstRoot ++ rel)) (dstRoot ++ rel) with _ | ent
  · rw [hd] at herr
    cases force <;> simp only [shutilMove, hs1] at herr <;>
      exact Option.noConfusion herr
  · rw [hd] at herr
    cases force with
    | false => cases ent <;> exact hs1
    | true =>
      cases ent with
      | dir => exact hs1
      | file d =>
        simp only [shutilMove] at herr ⊢
        rcases hs2 : lookup (eraseP (mkdirParents fs (dstRoot ++ rel))
            (dstRoot ++ rel)) (srcRoot ++ rel) with _ | e2
        · simp only [hs2] at herr
          injection herr with herr
          subst herr
          rcases he with he | he <;> exact absurd he (by simp)
        · cases e2 with
          | file c2 =>
            simp only [hs2] at herr
            exact Option.noConfusion herr
          | dir =>
            simp only [hs2] at herr
            injection herr with herr
            subst herr
            rcases he with he | he <;> exact absurd he (by simp)

/-! ### Claim C7: round-trip move -/

/-- C7: moving an article (a regular file) from store A to store B and then
moving it back to store A, both moves succeeding, reproduces the file with
byte-identical content at the original relative path in store A. -/
theorem c7_move_round_trip (fs : FS) (rootA rootB rel : FPath) (c : List Char)
    (f1 f2 : Bool)
    (hsrc : lookup fs (rootA ++ rel) = some (.file c))
    (h1 : (moveArticle fs rootA rootB rel f1).2 = none)
    (h2 : (moveArticle (moveArticle fs rootA rootB rel f1).1
      rootB rootA rel f2).2 = none) :
    lookup (moveArticle (moveArticle fs rootA rootB rel f1).1
      rootB rootA rel f2).1 (rootA ++ rel) = some (.file c) := by
  have hne : rootA ++ rel ≠ rootB ++ rel := by
    intro heq
    exact moveArticle_same_path_fails fs rootA rootB rel c f1 heq hsrc h1
  obtain ⟨g, hg1, hg2⟩ :=
    moveArticle_success_shape fs rootA rootB rel c f1 hsrc hne h1
  set fs1 := (moveArticle fs rootA rootB rel f1).1 with hfs1
  have hq : lookup fs1 (rootB ++ rel) = some (.file c) := by
    rw [hg1]; exact lookup_insertEnt_self _ _ _
  have hp : lookup fs1 (rootA ++ rel) = none := by
    rw [hg1, lookup_insertEnt_ne _ _ _ _ hne]; exact hg2
  have hd2 : lookup (mkdirParents fs1 (rootA ++ rel)) (rootA ++ rel) = none := by
    rw [lookup_mkdirParents_self]; exact hp
  have hs2 : lookup (mkdirParents fs1 (rootA ++ rel)) (rootB ++ rel)
      = some (.file c) :=
    lookup_mkdirParents_keeps _ _ _ _ hq
  unfold moveArticle
  rw [hd2]
  cases f2 <;> simp only [shutilMove, hs2] <;> exact lookup_insertEnt_self _ _ _

/-- Witness for C7 at a concrete store: `docs/a.md` moved to `drafts/` and
back is intact. -/
theorem c7_witness :
    lookup fsMove ([chars "docs"] ++ [chars "a.md"])
      = some (.file (chars "# A")) ∧
    lookup (moveArticle (moveArticle fsMove [chars "docs"] [chars "drafts"]
        [chars "a.md"] false).1 [chars "drafts"] [chars "docs"]
        [chars "a.md"] false).1 ([chars "docs"] ++ [chars "a.md"])
      = some (.file (chars "# A")) :=
  ⟨by decide,
   c7_move_round_trip fsMove [chars "docs"] [chars "drafts"] [chars "a.md"]
     (chars "# A") false false (by decide) (by decide) (by decide)⟩

/-- Witness for C8 at a concrete store: moving `docs/b.md` onto the existing
directory `drafts/b.md` without `force` raises `FileExistsError` and leaves
the source untouched. -/
theorem c8_witness :
    lookup fsMove8 ([chars "docs"] ++ [chars "b.md"])
      = some (.file (chars "bee")) ∧
    (moveArticle fsMove8 [chars "docs"] [chars "drafts"] [chars "b.md"]
        false).2 = some MoveErr.alreadyExists ∧
    lookup (moveArticle fsMove8 [chars "docs"] [chars "drafts"] [chars "b.md"]
        false).1 ([chars "docs"] ++ [chars "b.md"])
      = some (.file (chars "bee")) :=
  ⟨by decide, by decide,
   c8_error_leaves_source_intact fsMove8 [chars "docs"] [chars "drafts"]
     [chars "b.md"] false (chars "bee") MoveErr.alreadyExists
     (by decide) (by decide) (Or.inl rfl)⟩

/-! ### Claim C1: destination-is-a-directory behaviour -/

/-- C1 (amended): when the destination path exists as a directory, the mover
never completes; with `overwrite = true` it signals `DestinationIsDirectory`
(`IsADirectoryError`), but with `overwrite = false` it signals `AlreadyExists`
(`FileExistsError`), because the `force` check precedes the directory check. -/
theorem c1_dest_dir_error_depends_on_force (fs : FS)
    (srcRoot dstRoot rel : FPath) (force : Bool)
    (hdir : lookup fs (dstRoot ++ rel) = some .dir) :
    (moveArticle fs srcRoot dstRoot rel force).2
      = some (if force then MoveErr.isADirectory else MoveErr.alreadyExists) := by
  have hd : lookup (mkdirParents fs (dstRoot ++ rel)) (dstRoot ++ rel)
      = some .dir :=
    lookup_mkdirParents_keeps _ _ _ _ hdir
  unfold moveArticle
  rw [hd]
  cases force <;> simp

/-- C1 is refuted at a concrete input: `drafts/b.md` exists as a directory,
yet with `overwrite = false` the move signals `AlreadyExists`
(`FileExistsError`), not `DestinationIsDirectory`. -/
theorem c1_counterexample :
    lookup fsMove8 ([chars "drafts"] ++ [chars "b.md"]) = some .dir ∧
    (moveArticle fsMove8 [chars "docs"] [chars "drafts"] [chars "b.md"]
        false).2 = some MoveErr.alreadyExists ∧
    (moveArticle fsMove8 [chars "docs"] [chars "drafts"] [chars "b.md"]
        false).2 ≠ some MoveErr.isADirectory :=
  ⟨by decide, by decide, by decide⟩

/-- Witness for C1 (amended) at a concrete store: with `overwrite = true` the
same destination directory does signal `DestinationIsDirectory`. -/
theorem c1_witness :
    lookup fsMove8 ([chars "drafts"] ++ [chars "b.md"]) = some .dir ∧
    (moveArticle fsMove8 [chars "docs"] [chars "drafts"] [chars "b.md"]
        true).2 = some MoveErr.isADirectory :=
  ⟨by decide,
   c1_dest_dir_error_depends_on_force fsMove8 [chars "docs"] [chars "drafts"]
     [chars "b.md"] true (by decide)⟩

/-! ### Claim C5: the selection parser returns sorted, deduplicated,
in-range indices -/

theorem mem_insertSorted (a x : Int) (l : List Int) :
    a ∈ insertSorted x l ↔ a = x ∨ a ∈ l := by
  induction l with
  | nil => simp [insertSorted]
  | cons y ys ih =>
    by_cases h1 : x < y
    · simp [insertSorted, h1]
    · by_cases h2 : x = y
      · rw [show insertSorted x (y :: ys) = y :: ys from by
          unfold insertSorted; rw [if_neg h1, if_pos h2]]
        subst h2
        simp only [List.mem_cons]
        tauto
      · simp only [insertSorted, if_neg h1, if_neg h2, List.mem_cons, ih]
        tauto

theorem pairwise_insertSorted (x : Int) (l : List Int)
    (h : l.Pairwise (· < ·)) : (insertSorted x l).Pairwise (· < ·) := by
  induction l with
  | nil => simp [insertSorted]
  | cons y ys ih =>
    rw [List.pairwise_cons] at h
    obtain ⟨hy, hys⟩ := h
    by_cases h1 : x < y
    · simp only [insertSorted, if_pos h1]
      rw [List.pairwise_cons]
      refine ⟨?_, ?_⟩
      · intro b hb
        rcases List.mem_cons.1 hb with rfl | hb
        · exact h1
        · exact lt_trans h1 (hy b hb)
      · rw [List.pairwise_cons]
        exact ⟨hy, hys⟩
    · by_cases h2 : x = y
      · simp only [insertSorted, if_neg h1, if_pos h2]
        rw [List.pairwise_cons]
        exact ⟨hy, hys⟩
      · simp only [insertSorted, if_neg h1, if_neg h2]
        rw [List.pairwise_cons]
        have hyx : y < x := by
          rcases lt_trichotomy x y with h | h | h
          · exact absurd h h1
          · exact absurd h h2
          · exact h
        refine ⟨?_, ih hys⟩
        intro b hb
        rcases (mem_insertSorted b x ys).1 hb with rfl | hb
        · exact hyx
        · exact hy b hb

theorem pairwise_sortedSet (l : List Int) : (sortedSet l).Pairwise (· < ·) := by
  induction l with
  | nil => simp [sortedSet]
  | cons x xs ih => exact pairwise_insertSorted x _ ih

theorem mem_sortedSet (a : Int) (l : List Int) (h : a ∈ sortedSet l) : a ∈ l := by
  induction l with
  | nil => simp [sortedSet] at h
  | cons x xs ih =>
    rcases (mem_insertSorted a x (sortedSet xs)).1 h with rfl | h2
    · exact List.mem_cons_self _ _
    · exact List.mem_cons_of_mem _ (ih h2)

/-- C5: whenever the selection parser succeeds it returns indices all within
`[1, item_count]`, sorted strictly ascending, with no duplicates — even for
duplicate or overlapping tokens — and a `start-end` range with
`start > end` is swapped before expansion: `"1,1,2-3,2"` with five items
yields `[1, 2, 3]`, as does `"3-1"`. -/
theorem c5_selection_parse_sound :
    (∀ (n : Nat) (raw : List Char) (l : List Int),
        promptIndices n raw = .ok l →
        l.Pairwise (· < ·) ∧ l.Nodup ∧ ∀ i ∈ l, 1 ≤ i ∧ i ≤ (n : Int)) ∧
    promptIndices 5 (chars "1,1,2-3,2") = .ok [1, 2, 3] ∧
    promptIndices 5 (chars "3-1") = .ok [1, 2, 3] := by
  refine ⟨?_, rfl, rfl⟩
  intro n raw l h
  unfold promptIndices at h
  split at h
  · injection h with h
    subst h
    simp
  · split at h
    · injection h with h
      subst h
      simp
    · split at h
      · exact Except.noConfusion h
      · split at h
        · exact Except.noConfusion h
        · split at h
          · exact Except.noConfusion h
          · injection h with h
            subst h
            refine ⟨pairwise_sortedSet _, ?_, ?_⟩
            · exact (pairwise_sortedSet _).imp (fun hab => ne_of_lt hab)
            · intro i hi
              have hm := mem_sortedSet i _ hi
              have hf := (List.mem_filter.1 hm).2
              exact of_decide_eq_true hf

/-- Witness for C5: the parse of `"1,1,2-3,2"` with five items succeeds and
the theorem yields its sortedness. -/
theorem c5_witness : ([(1 : Int), 2, 3]).Pairwise (· < ·) :=
  (c5_selection_parse_sound.1 5 (chars "1,1,2-3,2") [1, 2, 3] rfl).1

/-! ### Claim C2: title extraction and its fallback -/

theorem pySplitP_ne_nil (p : Char → Bool) (s : List Char) : pySplitP p s ≠ [] := by
  cases s with
  | nil => simp [pySplitP]
  | cons c rest =>
    unfold pySplitP
    by_cases h : p c
    · simp [h]
    · simp only [if_neg h]
      rcases hs : pySplitP p rest with _ | ⟨w, ws⟩ <;> simp

theorem pySplitP_append_sep (p : Char → Bool) (s : List Char) (c : Char)
    (hc : p c = true) : pySplitP p (s ++ [c]) = pySplitP p s ++ [[]] := by
  induction s with
  | nil => simp [pySplitP, hc]
  | cons a t ih =>
    by_cases ha : p a
    · simp only [List.cons_append, pySplitP, if_pos ha, List.append_eq, ih]
    · rcases hs : pySplitP p t with _ | ⟨w, ws⟩
      · exact absurd hs (pySplitP_ne_nil p t)
      · simp only [List.cons_append, pySplitP, if_neg ha, List.append_eq, ih, hs]

theorem tokensBy_append_sep (p : Char → Bool) (s : List Char) (c : Char)
    (hc : p c = true) : tokensBy p (s ++ [c]) = tokensBy p s := by
  unfold tokensBy
  rw [pySplitP_append_sep p s c hc, List.filter_append]
  simp

theorem tokensBy_append_all (p : Char → Bool) (s u : List Char)
    (hu : ∀ c ∈ u, p c = true) : tokensBy p (s ++ u) = tokensBy p s := by
  induction u generalizing s with
  | nil => simp
  | cons c u ih =>
    have hrw : s ++ (c :: u) = (s ++ [c]) ++ u := by simp
    rw [hrw, ih (s ++ [c]) (fun d hd => hu d (List.mem_cons_of_mem c hd)),
      tokensBy_append_sep p s c (hu c (List.mem_cons_self c u))]

theorem tokensBy_dropWhile (p : Char → Bool) (s : List Char) :
    tokensBy p (s.dropWhile p) = tokensBy p s := by
  induction s with
  | nil => rfl
  | cons c rest ih =>
    by_cases h : p c = true
    · rw [List.dropWhile_cons]
      simp only [h, if_true]
      rw [ih]
      unfold tokensBy
      simp [pySplitP, h]
    · rw [List.dropWhile_cons]
      simp [h]

theorem mem_tokensBy_ne_nil (p : Char → Bool) (w : List Char) (s : List Char)
    (h : w ∈ tokensBy p s) : w ≠ [] := by
  unfold tokensBy at h
  exact of_decide_eq_true (List.mem_filter.1 h).2

theorem tokensBy_filter_self (p : Char → Bool) (s : List Char) :
    (tokensBy p s).filter (fun w => decide (¬ w = [])) = tokensBy p s :=
  List.filter_eq_self.mpr (fun w hw =>
    decide_eq_true (mem_tokensBy_ne_nil p w s hw))

theorem tokensBy_stripBy (p : Char → Bool) (s : List Char) :
    tokensBy p (stripBy p s) = tokensBy p s := by
  have hdecomp : ∀ t : List Char,
      t = (t.reverse.dropWhile p).reverse ++ (t.reverse.takeWhile p).reverse := by
    intro t
    conv_lhs => rw [← t.reverse_reverse,
      ← List.takeWhile_append_dropWhile (p := p) (l := t.reverse)]
    rw [List.reverse_append]
  have hall : ∀ c ∈ ((s.dropWhile p).reverse.takeWhile p).reverse, p c = true := by
    intro c hc
    rw [List.mem_reverse] at hc
    exact List.mem_takeWhile_imp hc
  unfold stripBy
  calc tokensBy p ((s.dropWhile p).reverse.dropWhile p).reverse
      = tokensBy p (((s.dropWhile p).reverse.dropWhile p).reverse
          ++ ((s.dropWhile p).reverse.takeWhile p).reverse) :=
        (tokensBy_append_all p _ _ hall).symm
    _ = tokensBy p (s.dropWhile p) := by rw [← hdecomp (s.dropWhile p)]
    _ = tokensBy p s := tokensBy_dropWhile p s

theorem fallbackTitle_eq_spec (stem : List Char) :
    fallbackTitle stem = fallbackTitleSpec stem := by
  unfold fallbackTitle fallbackTitleSpec pySplitWs pyStrip
  rw [tokensBy_stripBy, tokensBy_filter_self]

theorem findTitle_eq_none (ls : List (List Char))
    (h : ∀ l ∈ ls, (chars "# ").isPrefixOf (pyStrip l) = false) :
    findTitle ls = none := by
  induction ls with
  | nil => rfl
  | cons l ls ih =>
    unfold findTitle
    rw [h l (List.mem_cons_self _ _)]
    simp only [Bool.false_eq_true, if_false]
    exact ih (fun x hx => h x (List.mem_cons_of_mem _ hx))

/-- C2 is refuted at a concrete input: a file whose bytes are not valid UTF-8
makes `read_text(encoding="utf-8")` raise `UnicodeDecodeError`, which is a
`ValueError` and escapes the `except OSError` handler, so `_read_title`
raises instead of returning a string. -/
theorem c2_counterexample :
    readTitle (chars "x") ReadOutcome.decodeError = Except.error () := rfl

/-- C2 (amended): `_read_title` returns the fallback title — underscores and
hyphens replaced by spaces, each non-empty word capitalized, words joined by
single spaces — whenever the read fails with an `OSError` or no trimmed line
starts with `"# "`; but a `UnicodeDecodeError` raised by
`read_text(encoding="utf-8")` is not caught and propagates. -/
theorem c2_title_fallback (stem : List Char) (r : ReadOutcome)
    (h : r = ReadOutcome.osError ∨
      ∃ text, r = ReadOutcome.ok text ∧
        ∀ l ∈ pySplitlines text, (chars "# ").isPrefixOf (pyStrip l) = false) :
    readTitle stem r = Except.ok (fallbackTitleSpec stem) := by
  rcases h with rfl | ⟨text, rfl, hl⟩
  · rw [show readTitle stem ReadOutcome.osError
        = Except.ok (fallbackTitle stem) from rfl,
      fallbackTitle_eq_spec]
  · rw [show readTitle stem (ReadOutcome.ok text)
        = (match findTitle (pySplitlines text) with
           | some t => Except.ok t
           | none => Except.ok (fallbackTitle stem)) from rfl]
    rw [findTitle_eq_none _ hl, fallbackTitle_eq_spec]

/-- Witness for C2 (amended): a heading-free two-line file with stem
`my_file-name` falls back to `My File Name`. -/
theorem c2_witness :
    readTitle (chars "my_file-name") (ReadOutcome.ok (chars "hello\nworld"))
      = Except.ok (chars "My File Name") := by
  have h := c2_title_fallback (chars "my_file-name")
    (ReadOutcome.ok (chars "hello\nworld"))
    (Or.inr ⟨chars "hello\nworld", rfl, by decide⟩)
  rw [h]
  rfl

/-! ### Claims C3 and C9: the scan's eligibility filter and the rendered
sections -/

theorem mem_insSorted_iff (key : FPath → List Char) (a x : FPath)
    (l : List FPath) : a ∈ insSorted key x l ↔ a = x ∨ a ∈ l := by
  induction l with
  | nil => simp [insSorted]
  | cons y ys ih =>
    unfold insSorted
    by_cases h : lexLe (key x) (key y)
    · simp [h]
    · simp only [if_neg h, List.mem_cons, ih]
      tauto

theorem mem_sortByKey_iff (key : FPath → List Char) (a : FPath)
    (l : List FPath) : a ∈ sortByKey key l ↔ a ∈ l := by
  induction l with
  | nil => simp [sortByKey]
  | cons x xs ih =>
    unfold sortByKey
    rw [mem_insSorted_iff, ih, List.mem_cons]

theorem lookup_eq_some_of_mem (fs : FS) (p : FPath) (e : Entry)
    (hnd : (fs.map (fun pe => pe.1)).Nodup) (hm : (p, e) ∈ fs) :
    lookup fs p = some e := by
  induction fs with
  | nil => simp at hm
  | cons pe rest ih =>
    obtain ⟨q, ent⟩ := pe
    rw [List.map_cons, List.nodup_cons] at hnd
    rcases List.mem_cons.1 hm with heq | hm2
    · cases heq
      simp [lookup]
    · have hpq : q ≠ p := by
        intro hh
        subst hh
        exact hnd.1 (List.mem_map.2 ⟨(q, e), hm2, rfl⟩)
      simp only [lookup, if_neg hpq]
      exact ih hnd.2 hm2

theorem mem_of_lookup_eq_some (fs : FS) (p : FPath) (e : Entry)
    (h : lookup fs p = some e) : (p, e) ∈ fs := by
  induction fs with
  | nil => exact Option.noConfusion h
  | cons pe rest ih =>
    obtain ⟨q, ent⟩ := pe
    by_cases hq : q = p
    · subst hq
      simp only [lookup, if_pos rfl] at h
      injection h with h
      subst h
      exact List.mem_cons_self _ _
    · simp only [lookup, if_neg hq] at h
      exact List.mem_cons_of_mem _ (ih h)

theorem mem_iterMdFiles (fs : FS) (root p : FPath)
    (hnd : (fs.map (fun pe => pe.1)).Nodup) :
    p ∈ iterMdFiles fs root ↔
      lookup fs root ≠ none ∧
      (∃ c, lookup fs p = some (.file c)) ∧
      isStrictUnder root p = true ∧ nameEndsMd p = true := by
  unfold iterMdFiles
  by_cases hroot : lookup fs root = none
  · simp [hroot]
  · rw [if_neg hroot, mem_sortByKey_iff]
    simp only [List.mem_map, List.mem_filter]
    constructor
    · rintro ⟨⟨q, ent⟩, ⟨hmem, hpred⟩, rfl⟩
      simp only [Bool.and_eq_true] at hpred
      obtain ⟨⟨h1, h2⟩, h4⟩ := hpred
      refine ⟨hroot, ?_, h1, h4⟩
      cases ent with
      | dir => simp [isFileEnt] at h2
      | file c => exact ⟨c, lookup_eq_some_of_mem fs q (.file c) hnd hmem⟩
    · rintro ⟨_, ⟨c, hc⟩, h1, h2⟩
      refine ⟨(p, .file c), ⟨mem_of_lookup_eq_some fs p _ hc, ?_⟩, rfl⟩
      simp [Bool.and_eq_true, h1, h2, isFileEnt]

theorem strictUnder_mem_strictPrefixes (root p : FPath) (hroot : root ≠ [])
    (h : isStrictUnder root p = true) : root ∈ strictPrefixes p := by
  simp only [isStrictUnder, Bool.and_eq_true, decide_eq_true_eq] at h
  obtain ⟨hpre, hlen⟩ := h
  obtain ⟨t, ht⟩ := List.isPrefixOf_iff_prefix.1 hpre
  rw [mem_strictPrefixes]
  refine ⟨root.length, ?_, hlen, ?_⟩
  · cases root with
    | nil => exact absurd rfl hroot
    | cons a l => simp
  · rw [← ht, List.take_left]

theorem wf_root_is_dir (fs : FS) (root p : FPath) (c : List Char)
    (hwf : WF fs) (hroot : root ≠ [])
    (hc : lookup fs p = some (.file c))
    (hu : isStrictUnder root p = true) : lookup fs root = some Entry.dir :=
  (hwf.2 _ (mem_of_lookup_eq_some fs p _ hc)).2 root
    (strictUnder_mem_strictPrefixes root p hroot hu)

/-- C3 is refuted at a concrete input: `docs/X.MD` is a regular file whose
extension matches `.md` case-insensitively (`Article.is_markdown` accepts
it), yet the scan — built on the case-sensitive glob `rglob("*.md")` — does
not enumerate it. -/
theorem c3_counterexample :
    isMarkdown [chars "X.MD"] = true ∧
    lookup fsScan [chars "docs", chars "X.MD"] = some (.file (chars "hi")) ∧
    [chars "docs", chars "X.MD"] ∉ iterMdFiles fsScan [chars "docs"] :=
  ⟨by decide, by decide, by decide⟩

/-- C3 (amended): on a well-formed store, the scan enumerates exactly the
regular files strictly below the root whose final name ends with the literal
lower-case `.md` (the `rglob("*.md")` pattern, case-sensitive on a POSIX file
system); the case-insensitive `Article.is_markdown` predicate is not
consulted by the scan. -/
theorem c3_scan_exactly_lowercase_md (fs : FS) (root p : FPath)
    (hwf : WF fs) (hroot : root ≠ []) :
    p ∈ iterMdFiles fs root ↔
      (∃ c, lookup fs p = some (.file c)) ∧
      isStrictUnder root p = true ∧ nameEndsMd p = true := by
  rw [mem_iterMdFiles fs root p hwf.1]
  constructor
  · rintro ⟨_, h1, h2, h3⟩
    exact ⟨h1, h2, h3⟩
  · rintro ⟨⟨c, hc⟩, h2, h3⟩
    refine ⟨?_, ⟨c, hc⟩, h2, h3⟩
    rw [wf_root_is_dir fs root p c hwf hroot hc h2]
    simp

/-- Witness for C3 (amended): `docs/llm/t.md` is enumerated by the scan of
`docs/`. -/
theorem c3_witness :
    [chars "docs", chars "llm", chars "t.md"]
      ∈ iterMdFiles fsNav [chars "docs"] :=
  (c3_scan_exactly_lowercase_md fsNav [chars "docs"]
    [chars "docs", chars "llm", chars "t.md"] (by decide) (by decide)).2
    ⟨⟨chars "# T\nbody", by decide⟩, by decide, by decide⟩

theorem navEntryLine_get2 (ti : List Char × List Char) :
    (navEntryLine ti).get? 2 = some ' ' := rfl

theorem header_ne_entryLine (h : List Char) (ti : List Char × List Char)
    (hh : h.get? 2 = some '-') : navEntryLine ti ≠ h := by
  intro he
  rw [← he, navEntryLine_get2] at hh
  injection hh with hc
  exact absurd hc (by decide)

theorem header_not_mem_sectionBlock (h hdr : List Char)
    (items : List (List Char × List Char)) (hne : h ≠ hdr)
    (hh : h.get? 2 = some '-') : h ∉ sectionBlock hdr items := by
  unfold sectionBlock
  by_cases hi : items = []
  · rw [if_pos hi]
    simp
  · rw [if_neg hi]
    intro hmem
    rcases List.mem_cons.1 hmem with rfl | hmem2
    · exact hne rfl
    · obtain ⟨ti, _, hti⟩ := List.mem_map.1 hmem2
      exact header_ne_entryLine h ti hh hti

theorem header_mem_sectionBlock_self (h : List Char)
    (items : List (List Char × List Char)) :
    h ∈ sectionBlock h items ↔ items ≠ [] := by
  unfold sectionBlock
  by_cases hi : items = []
  · rw [if_pos hi]
    simp [hi]
  · rw [if_neg hi]
    simp [hi, List.mem_cons]

theorem mem_renderNavLines_iff (fs : FS) (h : List Char) :
    h ∈ renderNavLines fs ↔
      h ∈ [chars "nav:", chars "  - Home: index.md"] ∨
      h ∈ sectionBlock llmHeader (sectionItems fs llmDir) ∨
      h ∈ sectionBlock agentsHeader (sectionItems fs agentsDir) ∨
      h ∈ sectionBlock scienceHeader (sectionItems fs scienceDir) ∨
      h ∈ [chars "  - About: about.md"] := by
  unfold renderNavLines
  simp [List.mem_append, or_assoc]

theorem sectionItems_ne_nil_iff (fs : FS) (dir : FPath) (hwf : WF fs)
    (hdir : dir ≠ []) :
    sectionItems fs dir ≠ [] ↔ SectionHasArticle fs dir := by
  unfold sectionItems
  by_cases hd : lookup fs dir = none
  · rw [if_pos hd]
    constructor
    · intro h
      exact absurd rfl h
    · rintro ⟨p, c, hc, h1, h2⟩
      exfalso
      rw [wf_root_is_dir fs dir p c hwf hdir hc h1] at hd
      exact Option.noConfusion hd
  · rw [if_neg hd, ne_eq, List.map_eq_nil_iff]
    constructor
    · intro h
      obtain ⟨p, hp⟩ := List.exists_mem_of_ne_nil _ h
      obtain ⟨_, ⟨c, hc⟩, h1, h2⟩ := (mem_iterMdFiles fs dir p hwf.1).1 hp
      exact ⟨p, c, hc, h1, h2⟩
    · rintro ⟨p, c, hc, h1, h2⟩
      intro hnil
      have hp : p ∈ iterMdFiles fs dir :=
        (mem_iterMdFiles fs dir p hwf.1).2 ⟨hd, ⟨c, hc⟩, h1, h2⟩
      rw [hnil] at hp
      simp at hp

/-- C9: for every well-formed store, each of the three named section headers
appears among the rendered manifest's lines if and only if its bound
subdirectory contains at least one eligible article; an empty or absent
subdirectory emits no header line. -/
theorem c9_sections_iff_nonempty (fs : FS) (hwf : WF fs) :
    (llmHeader ∈ renderNavLines fs ↔ SectionHasArticle fs llmDir) ∧
    (agentsHeader ∈ renderNavLines fs ↔ SectionHasArticle fs agentsDir) ∧
    (scienceHeader ∈ renderNavLines fs ↔ SectionHasArticle fs scienceDir) := by
  refine ⟨?_, ?_, ?_⟩
  · rw [← sectionItems_ne_nil_iff fs llmDir hwf (by decide),
      mem_renderNavLines_iff]
    constructor
    · rintro (hfix | hown | hother | hother2 | habout)
      · exact absurd hfix (by decide)
      · exact (header_mem_sectionBlock_self _ _).1 hown
      · exact absurd hother
          (header_not_mem_sectionBlock _ _ _ (by decide) (by decide))
      · exact absurd hother2
          (header_not_mem_sectionBlock _ _ _ (by decide) (by decide))
      · exact absurd habout (by decide)
    · intro hne
      exact Or.inr (Or.inl ((header_mem_sectionBlock_self _ _).2 hne))
  · rw [← sectionItems_ne_nil_iff fs agentsDir hwf (by decide),
      mem_renderNavLines_iff]
    constructor
    · rintro (hfix | hother | hown | hother2 | habout)
      · exact absurd hfix (by decide)
      · exact absurd hother
          (header_not_mem_sectionBlock _ _ _ (by decide) (by decide))
      · exact (header_mem_sectionBlock_self _ _).1 hown
      · exact absurd hother2
          (header_not_mem_sectionBlock _ _ _ (by decide) (by decide))
      · exact absurd habout (by decide)
    · intro hne
      exact Or.inr (Or.inr (Or.inl ((header_mem_sectionBlock_self _ _).2 hne)))
  · rw [← sectionItems_ne_nil_iff fs scienceDir hwf (by decide),
      mem_renderNavLines_iff]
    constructor
    · rintro (hfix | hother | hother2 | hown | habout)
      · exact absurd hfix (by decide)
      · exact absurd hother
          (header_not_mem_sectionBlock _ _ _ (by decide) (by decide))
      · exact absurd hother2
          (header_not_mem_sectionBlock _ _ _ (by decide) (by decide))
      · exact (header_mem_sectionBlock_self _ _).1 hown
      · exact absurd habout (by decide)
    · intro hne
      exact Or.inr (Or.inr (Or.inr (Or.inl
        ((header_mem_sectionBlock_self _ _).2 hne))))

/-- Witness for C9: with one article in `docs/llm/`, the LLM section header
is rendered. -/
theorem c9_witness : llmHeader ∈ renderNavLines fsNav :=
  ((c9_sections_iff_nonempty fsNav (by decide)).1).2
    ⟨[chars "docs", chars "llm", chars "t.md"], chars "# T\nbody",
      by decide, by decide, by decide⟩

/-! ### Claim C4: the nav splice -/

theorem wsThenEol_iff (s : List Char) :
    wsThenEol s = true ↔
      ∃ w rest, s = w ++ rest ∧ (∀ c ∈ w, isPyWs c = true) ∧
        (rest = [] ∨ ∃ r2, rest = '\n' :: r2) := by
  induction s with
  | nil =>
    constructor
    · intro _
      exact ⟨[], [], rfl, fun c hc => absurd hc (List.not_mem_nil c), Or.inl rfl⟩
    · intro _
      rfl
  | cons c rest ih =>
    constructor
    · intro h
      unfold wsThenEol at h
      rw [Bool.or_eq_true] at h
      rcases h with h | h
      · have hc : c = '\n' := of_decide_eq_true h
        subst hc
        exact ⟨[], '\n' :: rest, rfl,
          fun d hd => absurd hd (List.not_mem_nil d), Or.inr ⟨rest, rfl⟩⟩
      · rw [Bool.and_eq_true] at h
        obtain ⟨hc, hrest⟩ := h
        obtain ⟨w, r2, heq, hw, hend⟩ := ih.1 hrest
        refine ⟨c :: w, r2, by rw [heq]; rfl, ?_, hend⟩
        intro d hd
        rcases List.mem_cons.1 hd with rfl | hd2
        · exact hc
        · exact hw d hd2
    · rintro ⟨w, r2, heq, hw, hend⟩
      cases w with
      | nil =>
        simp only [List.nil_append] at heq
        rcases hend with hnil | ⟨r3, hr3⟩
        · rw [hnil] at heq
          exact List.noConfusion heq
        · rw [hr3] at heq
          injection heq with h1 h2
          subst h1
          unfold wsThenEol
          simp
      | cons d w2 =>
        rw [List.cons_append] at heq
        injection heq with h1 h2
        subst h1
        unfold wsThenEol
        rw [Bool.or_eq_true, Bool.and_eq_true]
        right
        refine ⟨hw c (List.mem_cons_self _ _), ?_⟩
        exact ih.2 ⟨w2, r2, h2, fun x hx => hw x (List.mem_cons_of_mem _ hx), hend⟩

theorem navPatAt_iff (s : List Char) :
    navPatAt s = true ↔
      ∃ w rest, s = chars "nav:" ++ (w ++ rest) ∧
        (∀ c ∈ w, isPyWs c = true) ∧ (rest = [] ∨ ∃ r2, rest = '\n' :: r2) := by
  unfold navPatAt
  rw [Bool.and_eq_true, List.isPrefixOf_iff_prefix]
  constructor
  · rintro ⟨⟨t, ht⟩, hws⟩
    have hdrop : s.drop 4 = t := by rw [← ht]; rfl
    rw [hdrop] at hws
    obtain ⟨w, rest, heq, hw, hend⟩ := (wsThenEol_iff t).1 hws
    exact ⟨w, rest, by rw [← ht, heq], hw, hend⟩
  · rintro ⟨w, rest, heq, hw, hend⟩
    refine ⟨⟨w ++ rest, heq.symm⟩, ?_⟩
    have hdrop : s.drop 4 = w ++ rest := by rw [heq]; rfl
    rw [hdrop]
    exact (wsThenEol_iff _).2 ⟨w, rest, rfl, hw, hend⟩

theorem navMatchPos_iff (text : List Char) (i : Nat) :
    navMatchPos text i = true ↔ NavMatchSpec text i := by
  unfold navMatchPos NavMatchSpec lineStart
  rw [Bool.and_eq_true, Bool.or_eq_true, decide_eq_true_eq, decide_eq_true_eq,
    navPatAt_iff]

theorem findFirstIdx_some (p : Nat → Bool) (n : Nat) :
    ∀ (i j : Nat), findFirstIdx p i n = some j →
      p j = true ∧ i ≤ j ∧ ∀ k, i ≤ k → k < j → p k = false := by
  induction n with
  | zero => intro i j h; exact Option.noConfusion h
  | succ n ih =>
    intro i j h
    unfold findFirstIdx at h
    by_cases hp : p i = true
    · rw [if_pos hp] at h
      injection h with h
      subst h
      exact ⟨hp, le_refl _, fun k hk1 hk2 => absurd hk1 (by omega)⟩
    · rw [if_neg hp] at h
      have hpf : p i = false := by
        cases hpi : p i
        · rfl
        · exact absurd hpi hp
      obtain ⟨h1, h2, h3⟩ := ih (i + 1) j h
      refine ⟨h1, by omega, ?_⟩
      intro k hk1 hk2
      rcases Nat.eq_or_lt_of_le hk1 with rfl | hlt
      · exact hpf
      · exact h3 k (by omega) hk2

theorem findFirstIdx_none (p : Nat → Bool) (n : Nat) :
    ∀ (i : Nat), findFirstIdx p i n = none →
      ∀ k, i ≤ k → k < i + n → p k = false := by
  induction n with
  | zero => intro i _ k hk1 hk2; omega
  | succ n ih =>
    intro i h k hk1 hk2
    unfold findFirstIdx at h
    by_cases hp : p i = true
    · rw [if_pos hp] at h
      exact Option.noConfusion h
    · rw [if_neg hp] at h
      have hpf : p i = false := by
        cases hpi : p i
        · rfl
        · exact absurd hpi hp
      rcases Nat.eq_or_lt_of_le hk1 with rfl | hlt
      · exact hpf
      · exact ih (i + 1) h k (by omega) (by omega)

theorem navMatchSpec_le_length (text : List Char) (i : Nat)
    (h : NavMatchSpec text i) : i ≤ text.length := by
  by_contra hgt
  push_neg at hgt
  obtain ⟨_, w, rest, heq, _, _⟩ := h
  have hnil : text.drop i = [] := List.drop_eq_nil_of_le (by omega)
  rw [hnil] at heq
  have hlen := congrArg List.length heq
  have h4 : (chars "nav:").length = 4 := rfl
  rw [List.length_nil, List.length_append, h4, List.length_append] at hlen
  omega

/-- C4 (amended): the splice keys on the regex `(?m)^nav:\s*$` — a line
consisting of `nav:` plus optional trailing whitespace — not on a line
exactly equal to `nav:`.  When some position matches, the output is the
byte-identical text preceding the first matching position followed by the
rendered block; when no position matches, the output is the original text,
with a terminating newline added if it lacked one, then a blank separator
line, then the rendered block. -/
theorem c4_update_nav_splice (text nav : List Char) :
    (∃ i, NavMatchSpec text i ∧ (∀ j, j < i → ¬ NavMatchSpec text j) ∧
      updateMkdocsNav text nav = text.take i ++ nav) ∨
    ((∀ i, ¬ NavMatchSpec text i) ∧
      updateMkdocsNav text nav =
        (if text.getLast? = some '\n' then text else text ++ ['\n']) ++
          '\n' :: nav) := by
  unfold updateMkdocsNav
  rcases hm : navMatchStart text with _ | i
  · right
    refine ⟨?_, rfl⟩
    intro i hi
    have hle := navMatchSpec_le_length text i hi
    have hfalse := findFirstIdx_none _ _ _ hm i (by omega) (by omega)
    rw [← navMatchPos_iff] at hi
    rw [hfalse] at hi
    exact Bool.noConfusion hi
  · left
    obtain ⟨h1, _, h3⟩ := findFirstIdx_some _ _ 0 i hm
    refine ⟨i, (navMatchPos_iff text i).1 h1, ?_, rfl⟩
    intro j hj hspec
    have hjf := h3 j (by omega) hj
    have hjt := (navMatchPos_iff text j).2 hspec
    rw [hjf] at hjt
    exact Bool.noConfusion hjt

/-- C4 is refuted at a concrete input: in `"nav: \nx\n"` no line is exactly
equal to `nav:` (the first line carries a trailing space), so per the claim
the rendered block would be appended after the unchanged text; but the regex
`^nav:\s*$` accepts the trailing space, so the code replaces from position 0
and the preceding content is lost. -/
theorem c4_counterexample :
    chars "nav:" ∉ pySplitlines (chars "nav: \nx\n") ∧
    updateMkdocsNav (chars "nav: \nx\n")
        (renderNavYaml [([chars "docs"], .dir)])
      ≠ chars "nav: \nx\n" ++ '\n' :: renderNavYaml [([chars "docs"], .dir)] ∧
    updateMkdocsNav (chars "nav: \nx\n")
        (renderNavYaml [([chars "docs"], .dir)])
      = renderNavYaml [([chars "docs"], .dir)] :=
  ⟨by decide, by decide, by decide⟩

/-! ### Claims C6 and C10: cancellation and failed batches -/

theorem afterBatch_errMove_keeps_config (mk : Option (List Char))
    (r : FS × List (List Char) × Option BatchErr) (e : MoveErr)
    (h : (afterBatch mk r).ending = RunEnd.errMove e) :
    (afterBatch mk r).mkdocs = mk := by
  rcases r with ⟨fs2, prints, err⟩
  rcases err with _ | be
  · rcases hm : mk with _ | t
    · rfl
    · subst hm
      simp [afterBatch] at h
  · cases be with
    | move e2 => rfl
    | index => simp [afterBatch] at h

theorem interactiveMove_errMove_keeps_config (mk : Option (List Char))
    (fs : FS) (srcRoot dstRoot : FPath) (arts : List FPath)
    (label : List Char) (force : Bool) (rawSel : List Char) (e : MoveErr)
    (h : (interactiveMove mk fs srcRoot dstRoot arts label force
        rawSel).ending = RunEnd.errMove e) :
    (interactiveMove mk fs srcRoot dstRoot arts label force rawSel).mkdocs
      = mk := by
  revert h
  unfold interactiveMove
  split
  · intro h
    simp at h
  · split
    · intro h
      simp at h
    · intro h
      simp at h
    · intro h
      exact afterBatch_errMove_keeps_config mk _ e h

/-- C10: in interactive mode, whenever a move in the selection batch fails,
the configuration document is not rewritten at all during that run; the
concrete conjuncts exhibit a two-item batch where the first move had already
relocated `docs/a.md` into `drafts/` when moving `docs/b.md` failed, with
the config byte-identical to its original content. -/
theorem c10_failed_batch_keeps_config :
    (∀ (w : World) (force : Bool) (choice rawSel : List Char) (e : MoveErr),
      (interactive w force choice rawSel).ending = RunEnd.errMove e →
      (interactive w force choice rawSel).mkdocs = w.mkdocs) ∧
    (interactive wBatch false (chars "1") (chars "1 2")).ending
      = RunEnd.errMove MoveErr.alreadyExists ∧
    (interactive wBatch false (chars "1") (chars "1 2")).mkdocs
      = wBatch.mkdocs ∧
    lookup (interactive wBatch false (chars "1") (chars "1 2")).fs
      [chars "drafts", chars "a.md"] = some (.file (chars "aaa")) ∧
    lookup (interactive wBatch false (chars "1") (chars "1 2")).fs
      [chars "docs", chars "a.md"] = none ∧
    lookup (interactive wBatch false (chars "1") (chars "1 2")).fs
      [chars "docs", chars "b.md"] = some (.file (chars "bbb")) := by
  refine ⟨?_, by decide, by decide, by decide, by decide, by decide⟩
  intro w force choice rawSel e h
  revert h
  unfold interactive
  split
  · intro h
    simp at h
  · split
    · intro h
      simp at h
    · split
      · intro h
        exact interactiveMove_errMove_keeps_config _ _ _ _ _ _ _ _ _ h
      · split
        · intro h
          exact interactiveMove_errMove_keeps_config _ _ _ _ _ _ _ _ _ h
        · intro h
          simp at h

/-- Witness for C10: the concrete failed batch leaves the config
byte-identical, via the universal part of the claim theorem. -/
theorem c10_witness :
    (interactive wBatch false (chars "1") (chars "1 2")).mkdocs
      = wBatch.mkdocs :=
  c10_failed_batch_keeps_config.1 wBatch false (chars "1") (chars "1 2")
    MoveErr.alreadyExists (by decide)

/-- C6 is refuted at a concrete input: with an article available and a
whitespace-only selection, the run exits 0 and moves nothing, but it still
prints `Updated mkdocs nav.` and rewrites the configuration document (here
the config gains a nav block it did not have). -/
theorem c6_counterexample :
    (interactive wEmptySel false (chars "1") (chars "  ")).postPrints ≠ [] ∧
    (interactive wEmptySel false (chars "1") (chars "  ")).mkdocs
      ≠ wEmptySel.mkdocs ∧
    (interactive wEmptySel false (chars "1") (chars "  ")).ending
      = RunEnd.exit 0 :=
  ⟨by decide, by decide, by decide⟩

/-- C6 (amended): an empty or whitespace-only selection in publish/unpublish
mode is treated as cancellation — exit status 0 and no moves, the stores
changed only by the unconditional `drafts/` mkdir — but the run still
rewrites the configuration document's nav block (recomputed from the
unchanged stores) and prints `Updated mkdocs nav.`. -/
theorem c6_empty_selection_still_rewrites_nav (w : World) (force : Bool)
    (choice rawSel t : List Char)
    (hm : w.mkdocs = some t)
    (hsel : pyStrip rawSel = [])
    (hch : (toLowerStr (pyStrip choice) = chars "1" ∧
        articlesInDocs (ensureDrafts w.fs) ≠ []) ∨
      (toLowerStr (pyStrip choice) = chars "2" ∧
        articlesInDrafts (ensureDrafts w.fs) ≠ [])) :
    interactive w force choice rawSel =
      ⟨ensureDrafts w.fs,
       some (updateMkdocsNav t (renderNavYaml (ensureDrafts w.fs))),
       [chars "Updated mkdocs nav."], RunEnd.exit 0⟩ ∧
    ∀ p, p ≠ draftsDir → lookup (ensureDrafts w.fs) p = lookup w.fs p := by
  constructor
  · unfold interactive
    rcases hch with ⟨hc, harts⟩ | ⟨hc, harts⟩
    · have h1 : ¬(toLowerStr (pyStrip choice) = chars "q" ∨
          toLowerStr (pyStrip choice) = chars "quit" ∨
          toLowerStr (pyStrip choice) = chars "exit") := by
        rw [hc]; decide
      have h3 : ¬(toLowerStr (pyStrip choice) = chars "3") := by
        rw [hc]; decide
      rw [if_neg h1, if_neg h3, if_pos hc]
      unfold interactiveMove
      rw [if_neg harts, hm]
      have hn : (articlesInDocs (ensureDrafts w.fs)).length ≠ 0 := by
        intro h0
        exact harts (List.length_eq_zero.1 h0)
      have hpw : promptIndices (articlesInDocs (ensureDrafts w.fs)).length
          rawSel = .ok [] := by
        unfold promptIndices
        rw [if_neg hn, if_pos hsel]
      rw [hpw]
      rfl
    · have h1 : ¬(toLowerStr (pyStrip choice) = chars "q" ∨
          toLowerStr (pyStrip choice) = chars "quit" ∨
          toLowerStr (pyStrip choice) = chars "exit") := by
        rw [hc]; decide
      have h3 : ¬(toLowerStr (pyStrip choice) = chars "3") := by
        rw [hc]; decide
      have h1' : ¬(toLowerStr (pyStrip choice) = chars "1") := by
        rw [hc]; decide
      rw [if_neg h1, if_neg h3, if_neg h1', if_pos hc]
      unfold interactiveMove
      rw [if_neg harts, hm]
      have hn : (articlesInDrafts (ensureDrafts w.fs)).length ≠ 0 := by
        intro h0
        exact harts (List.length_eq_zero.1 h0)
      have hpw : promptIndices (articlesInDrafts (ensureDrafts w.fs)).length
          rawSel = .ok [] := by
        unfold promptIndices
        rw [if_neg hn, if_pos hsel]
      rw [hpw]
      rfl
  · intro p hp
    unfold ensureDrafts
    by_cases hd : lookup w.fs draftsDir = none
    · rw [if_pos hd]
      exact lookup_insertEnt_ne _ _ _ _ hp
    · rw [if_neg hd]

/-- Witness for C6 (amended) at the concrete world: the whitespace-only
selection exits 0 without moves yet rewrites the config. -/
theorem c6_witness :
    interactive wEmptySel false (chars "1") (chars "  ") =
      ⟨ensureDrafts wEmptySel.fs,
       some (updateMkdocsNav (chars "site_name: s\n")
         (renderNavYaml (ensureDrafts wEmptySel.fs))),
       [chars "Updated mkdocs nav."], RunEnd.exit 0⟩ :=
  (c6_empty_selection_still_rewrites_nav wEmptySel false (chars "1")
    (chars "  ") (chars "site_name: s\n") rfl (by decide)
    (Or.inl ⟨by decide, by decide⟩)).1
